import Mathlib

/-!
Shallow embedding of the price-freshness aggregation engine of
`src/nodejs/analytics.js` (the body of `main`, lines 24-307).

Modelling conventions:

* Timestamps are integers (milliseconds since epoch), as produced by
  `Date.now()` and `new Date(s).getTime()`.  A present `updated_at` is
  modelled directly as its parsed integer value (the script's validator
  contract makes anything it labels valid parseable).
* The script reads the clock more than once.  `n` stands for the reading
  taken at line 25 (`const oneHourAgo = Date.now() - 60 * 60 * 1000`) and
  `l` stands for the value returned by the subsequent `Date.now()` and
  `new Date()` calls (lines 57, 94, 110, 140, 144, 294).  Giving all the
  later reads one common value is a special case of the real executions
  and suffices to express which outputs depend on which clock reading.
* JavaScript object-key semantics: `providerStats[k]` coerces a `null`
  key to the string "null"; the truthiness test `price.provider_key`
  (line 104) is false exactly for `null`/missing and for the empty
  string.  `Object.keys` preserves insertion order for string keys,
  modelled by an association list with insert-at-end; provider keys are
  assumed not to be array-index-like strings (which JS would reorder).
* Fractional values (`price / 100`, percentages) are modelled as exact
  rationals; `Number.prototype.toFixed(2)` followed by `parseFloat` is
  modelled as round-half-up to 2 decimal places.  The ISO-8601 rendering
  of an instant is modelled by the instant itself ("N/A" becomes `none`).
-/

/-- Raw quote shape consumed from the snapshot: `provider_key`,
`price` (integer cents or null) and `updated_at` (timestamp or null). -/
structure Quote where
  provider_key : Option String
  price : Option Int
  updated_at : Option Int
deriving DecidableEq

/-- Item shape: `market_hash_name` and an optional list of quotes
(`item.prices` may be absent, line 39 tests `item.prices &&`). -/
structure Item where
  market_hash_name : String
  prices : Option (List Quote)
deriving DecidableEq

/-- Mutable per-provider accumulator created lazily at lines 53-63 and
106-116 (`avgPrice` is only filled in during the report phase and is kept
out of the accumulator). -/
structure Stats where
  total : Nat
  upToDate : Nat
  oldestUpdate : Int
  newestUpdate : Int
  totalPrice : Int
  skippedCount : Nat
deriving DecidableEq

/-- One entry of the `outdatedPrices` collection (lines 88-96).  `price`
is already converted to dollars; `updated_at` is the quote's timestamp. -/
structure StaleRecord where
  item_name : String
  provider : Option String
  price : ℚ
  updated_at : Int
  minutes_since_update : Int
deriving DecidableEq

/-- Aggregation state threaded through the `response.forEach` pass:
global counters (lines 28-30), the provider map (line 33) and the stale
collection (line 36). -/
structure AggState where
  upToDateCount : Nat
  totalPriceCount : Nat
  skippedPriceCount : Nat
  providerStats : List (String × Stats)
  outdatedPrices : List StaleRecord
deriving DecidableEq

/-- Line 25: `const oneHourAgo = Date.now() - 60 * 60 * 1000`. -/
def oneHourAgo (n : Int) : Int := n - 3600000

/-- JS property access `providerStats[price.provider_key]` coerces a
`null` key to the string "null". -/
def keyOf (pk : Option String) : String := pk.getD "null"

/-- JS truthiness of `price.provider_key` (line 104): false for
`null`/missing and for the empty string. -/
def truthyKey : Option String → Bool
  | none => false
  | some s => s ≠ ""

/-- Validator predicate of line 42:
`price.updated_at !== null && price.price !== null`. -/
def isValid (q : Quote) : Bool := q.updated_at.isSome && q.price.isSome

/-- Fresh accumulator object (lines 54-62 / 107-115): `oldestUpdate` is
initialised to the current clock reading `l`, `newestUpdate` to 0. -/
def initStats (l : Int) : Stats :=
  { total := 0, upToDate := 0, oldestUpdate := l, newestUpdate := 0
    totalPrice := 0, skippedCount := 0 }

/-- Association-list lookup for the provider map. -/
def lookupS : List (String × Stats) → String → Option Stats
  | [], _ => none
  | (k', v) :: rest, k => if k' = k then some v else lookupS rest k

/-- Association-list update: overwrite in place, or append at the end
when the key is absent (JS insertion order for fresh string keys). -/
def setStat : List (String × Stats) → String → Stats → List (String × Stats)
  | [], k, v => [(k, v)]
  | (k', v') :: rest, k, v =>
    if k' = k then (k, v) :: rest else (k', v') :: setStat rest k v

/-- Line 83: `updateTimestamp >= oneHourAgo`, the freshness test. -/
def fresh (n t : Int) : Bool := oneHourAgo n ≤ t

/-- Valid-quote step (lines 51-98): get-or-create the provider entry,
bump `total`/`totalPrice`, min/max the update bounds, then either count
the quote fresh or append a `StaleRecord` whose minute count uses the
later clock reading `l` (line 94 calls `Date.now()` again). -/
def processValid (n l : Int) (itemName : String) (st : AggState) (q : Quote) : AggState :=
  match q.price, q.updated_at with
  | some p, some t =>
    let s0 := (lookupS st.providerStats (keyOf q.provider_key)).getD (initStats l)
    let s1 := { s0 with total := s0.total + 1, totalPrice := s0.totalPrice + p }
    let s2 := if t < s1.oldestUpdate then { s1 with oldestUpdate := t } else s1
    let s3 := if s2.newestUpdate < t then { s2 with newestUpdate := t } else s2
    if fresh n t then
      { st with
        upToDateCount := st.upToDateCount + 1
        providerStats := setStat st.providerStats (keyOf q.provider_key)
          { s3 with upToDate := s3.upToDate + 1 } }
    else
      { st with
        providerStats := setStat st.providerStats (keyOf q.provider_key) s3
        outdatedPrices := st.outdatedPrices ++
          [{ item_name := itemName, provider := q.provider_key
             price := (p : ℚ) / 100, updated_at := t
             minutes_since_update := Int.fdiv (l - t) 60000 }] }
  | _, _ => st

/-- Skip-attribution step (lines 101-119): an invalid quote bumps its
provider's `skippedCount` only when `price.provider_key` is truthy. -/
def processSkip (l : Int) (st : AggState) (q : Quote) : AggState :=
  if ((q.updated_at.isNone || q.price.isNone) && truthyKey q.provider_key) then
    let s0 := (lookupS st.providerStats (keyOf q.provider_key)).getD (initStats l)
    let s1 := { s0 with skippedCount := s0.skippedCount + 1 }
    { st with providerStats := setStat st.providerStats (keyOf q.provider_key) s1 }
  else st

/-- Per-item step (lines 38-121): split valid from invalid quotes, bump
the global counters, fold the valid quotes, then run the skip pass over
the whole quote list. -/
def processItem (n l : Int) (st : AggState) (it : Item) : AggState :=
  match it.prices with
  | none => st
  | some ps =>
    if 0 < ps.length then
      let valids := ps.filter isValid
      let st1 := { st with
        skippedPriceCount := st.skippedPriceCount + (ps.length - valids.length)
        totalPriceCount := st.totalPriceCount + valids.length }
      let st2 := valids.foldl (processValid n l it.market_hash_name) st1
      ps.foldl (processSkip l) st2
    else st

/-- Initial aggregation state (lines 28-36). -/
def initAgg : AggState :=
  { upToDateCount := 0, totalPriceCount := 0, skippedPriceCount := 0
    providerStats := [], outdatedPrices := [] }

/-- The full aggregation pass over the snapshot. -/
def runAgg (n l : Int) (snapshot : List Item) : AggState :=
  snapshot.foldl (processItem n l) initAgg

/-- `x.toFixed(2)` re-read as a number: round half up to 2 decimals. -/
def toFixed2 (q : ℚ) : ℚ := ((⌊q * 100 + 1 / 2⌋ : ℤ) : ℚ) / 100

/-- Derived per-provider report fields (lines 124-146); `l` is the clock
reading used by the minutes-ago computations (lines 140 and 144). -/
structure ProviderReport where
  upToDatePercentage : ℚ
  avgPrice : ℚ
  oldestUpdateTime : Option Int
  newestUpdateTime : Option Int
  oldestUpdateMinutesAgo : Option Int
  newestUpdateMinutesAgo : Option Int
deriving DecidableEq

/-- Report phase of lines 124-146: percentages and averages with the
"0.00" sentinel, update bounds with the "N/A" sentinel. -/
def deriveStats (l : Int) (s : Stats) : ProviderReport :=
  { upToDatePercentage :=
      if 0 < s.total then toFixed2 ((s.upToDate : ℚ) / (s.total : ℚ) * 100) else 0
    avgPrice :=
      if 0 < s.total then toFixed2 ((s.totalPrice : ℚ) / (s.total : ℚ) / 100) else 0
    oldestUpdateTime := if 0 < s.total then some s.oldestUpdate else none
    newestUpdateTime := if 0 < s.total then some s.newestUpdate else none
    oldestUpdateMinutesAgo :=
      if 0 < s.total then some (Int.fdiv (l - s.oldestUpdate) 60000) else none
    newestUpdateMinutesAgo :=
      if 0 < s.total then some (Int.fdiv (l - s.newestUpdate) 60000) else none }

/-- The percentage the ranking loop compares:
`parseFloat(stats.upToDatePercentage)` for an entry with `total > 0`. -/
def pctOf (s : Stats) : ℚ := toFixed2 ((s.upToDate : ℚ) / (s.total : ℚ) * 100)

/-- One iteration of the ranking loop (lines 248-261): entries with
`total > 0` update the running best on a strictly greater percentage and
the running worst on a strictly smaller one. -/
def rankStep (acc : (String × ℚ) × (String × ℚ)) (e : String × Stats) :
    (String × ℚ) × (String × ℚ) :=
  if 0 < e.2.total then
    let pct := pctOf e.2
    ((if acc.1.2 < pct then (e.1, pct) else acc.1),
     (if pct < acc.2.2 then (e.1, pct) else acc.2))
  else acc

/-- The ranking fold with its sentinels `("", -1)` and `("", 101)`
(lines 243-246), iterating the provider map in insertion order
(`Object.keys(providerStats)` at line 248 has no `.sort()`). -/
def rankings (m : List (String × Stats)) : (String × ℚ) × (String × ℚ) :=
  m.foldl rankStep (("", -1), ("", 101))

/-- Line 264: `if (bestProvider)` — the ranking is reported only when the
winning name is truthy, i.e. not the empty-string sentinel. -/
def bestReported (m : List (String × Stats)) : Option (String × ℚ) :=
  if (rankings m).1.1 = "" then none else some (rankings m).1

/-- Line 269: `if (worstProvider)`. -/
def worstReported (m : List (String × Stats)) : Option (String × ℚ) :=
  if (rankings m).2.1 = "" then none else some (rankings m).2

/-- Ledger artifact shape (lines 293-298); `generated_at` models the
ISO-8601 string of the `new Date()` reading at line 294, and
`time_threshold_minutes` is the literal 60 of line 296. -/
structure Ledger where
  generated_at : Int
  total_outdated_prices : Nat
  time_threshold_minutes : Nat
  prices : List StaleRecord
deriving DecidableEq

/-- Lines 284-307: the ledger is produced iff `outdatedPrices` is
non-empty. -/
def buildLedger (l : Int) (out : List StaleRecord) : Option Ledger :=
  if 0 < out.length then
    some { generated_at := l, total_outdated_prices := out.length
           time_threshold_minutes := 60, prices := out }
  else none

/-- Ledger of a full run. -/
def ledgerOfRun (n l : Int) (snapshot : List Item) : Option Ledger :=
  buildLedger l (runAgg n l snapshot).outdatedPrices

/-- The run report surfaced by the console phase: global counters
(lines 200-212), data quality (lines 276-281, `none` models the NaN that
`0 / 0` produces on an empty denominator), derived per-provider entries,
and the two rankings. -/
structure RunReport where
  totalPriceCount : Nat
  skippedPriceCount : Nat
  upToDateCount : Nat
  outdatedCount : Nat
  freshPct : ℚ
  dataQualityPct : Option ℚ
  providers : List (String × ProviderReport)
  best : Option (String × ℚ)
  worst : Option (String × ℚ)
deriving DecidableEq

/-- Assemble the report of a full run; `l` is the clock reading used by
the report-phase `Date.now()` calls. -/
def runReport (n l : Int) (snapshot : List Item) : RunReport :=
  let st := runAgg n l snapshot
  { totalPriceCount := st.totalPriceCount
    skippedPriceCount := st.skippedPriceCount
    upToDateCount := st.upToDateCount
    outdatedCount := st.outdatedPrices.length
    freshPct :=
      if 0 < st.totalPriceCount then
        toFixed2 ((st.upToDateCount : ℚ) / (st.totalPriceCount : ℚ) * 100)
      else 0
    dataQualityPct :=
      if 0 < st.totalPriceCount + st.skippedPriceCount then
        some (toFixed2 ((st.totalPriceCount : ℚ) /
          ((st.totalPriceCount : ℚ) + (st.skippedPriceCount : ℚ)) * 100))
      else none
    providers := st.providerStats.map (fun e => (e.1, deriveStats l e.2))
    best := bestReported st.providerStats
    worst := worstReported st.providerStats }

/-! Generic helpers about folds and the association-list provider map. -/

/-- A predicate preserved by every step of a fold holds of the result. -/
theorem foldl_preserve {α σ : Type} (f : σ → α → σ) (P : σ → Prop) :
    ∀ (l : List α) (s0 : σ), (∀ s a, a ∈ l → P s → P (f s a)) → P s0 →
      P (l.foldl f s0)
  | [], _, _, h0 => h0
  | a :: l, s0, h, h0 =>
    foldl_preserve f P l (f s0 a)
      (fun s b hb => h s b (List.mem_cons_of_mem a hb))
      (h s0 a (List.mem_cons_self a l) h0)

/-- A numeric measure that each step advances by a per-element amount is
advanced by the total over the list. -/
theorem foldl_delta {α σ : Type} (f : σ → α → σ) (m : σ → Nat) (g : α → Nat) :
    ∀ (l : List α) (s0 : σ), (∀ s a, a ∈ l → m (f s a) = m s + g a) →
      m (l.foldl f s0) = m s0 + (l.map g).sum
  | [], s0, _ => by simp
  | a :: l, s0, h => by
    have ih := foldl_delta f m g l (f s0 a)
      (fun s b hb => h s b (List.mem_cons_of_mem a hb))
    simp only [List.foldl_cons, List.map_cons, List.sum_cons, ih,
      h s0 a (List.mem_cons_self a l)]
    omega


/-- Summing an indicator over a list counts the elements that satisfy it. -/
theorem sum_indicator {α : Type} (p : α → Bool) :
    ∀ l : List α, (l.map fun a => if p a then 1 else 0).sum = (l.filter p).length
  | [] => rfl
  | a :: l => by
    by_cases h : p a <;> simp [h, sum_indicator p l, Nat.add_comm]

theorem lookupS_setStat_self (k : String) (v : Stats) :
    ∀ m : List (String × Stats), lookupS (setStat m k v) k = some v
  | [] => by simp [setStat, lookupS]
  | (k', v') :: rest => by
    by_cases h : k' = k <;>
      simp [setStat, lookupS, h, lookupS_setStat_self k v rest]

theorem lookupS_setStat_ne (k : String) (v : Stats) (k' : String) (h : k' ≠ k) :
    ∀ m : List (String × Stats), lookupS (setStat m k v) k' = lookupS m k'
  | [] => by simp [setStat, lookupS, Ne.symm h]
  | (k'', v'') :: rest => by
    by_cases h2 : k'' = k
    · subst h2
      simp [setStat, lookupS, Ne.symm h]
    · simp [setStat, lookupS, h2, lookupS_setStat_ne k v k' h rest]

theorem mem_setStat {e : String × Stats} (k : String) (v : Stats) :
    ∀ m : List (String × Stats), e ∈ setStat m k v → e = (k, v) ∨ e ∈ m
  | [] => by simp [setStat]
  | (k', v') :: rest => by
    by_cases h : k' = k
    · simp only [setStat, if_pos h, List.mem_cons]
      rintro (rfl | he)
      · exact Or.inl rfl
      · exact Or.inr (Or.inr he)
    · simp only [setStat, if_neg h, List.mem_cons]
      rintro (rfl | he)
      · exact Or.inr (Or.inl rfl)
      · rcases mem_setStat k v rest he with h1 | h1
        · exact Or.inl h1
        · exact Or.inr (Or.inr h1)

theorem lookupS_none_of_not_mem_keys {k : String} :
    ∀ {m : List (String × Stats)}, k ∉ m.map Prod.fst → lookupS m k = none
  | [], _ => rfl
  | (k', v') :: rest, h => by
    simp only [List.map_cons, List.mem_cons] at h
    push_neg at h
    simp only [lookupS, if_neg (fun hh : k' = k => h.1 hh.symm)]
    exact lookupS_none_of_not_mem_keys h.2

theorem lookupS_of_mem_nodup {k : String} {v : Stats} :
    ∀ {m : List (String × Stats)}, (m.map Prod.fst).Nodup → (k, v) ∈ m →
      lookupS m k = some v
  | (k', v') :: rest, hnd, hm => by
    simp only [List.map_cons, List.nodup_cons] at hnd
    rcases List.mem_cons.mp hm with h | h
    · cases h
      simp [lookupS]
    · have hk : k' ≠ k := by
        rintro rfl
        exact hnd.1 (List.mem_map.mpr ⟨(k', v), h, rfl⟩)
      simp only [lookupS, if_neg hk]
      exact lookupS_of_mem_nodup hnd.2 h

theorem keys_setStat (k : String) (v : Stats) :
    ∀ m : List (String × Stats),
      (setStat m k v).map Prod.fst = m.map Prod.fst ∨
      (setStat m k v).map Prod.fst = m.map Prod.fst ++ [k]
  | [] => by simp [setStat]
  | (k', v') :: rest => by
    by_cases h : k' = k
    · simp [setStat, if_pos h, h]
    · rcases keys_setStat k v rest with h1 | h1 <;>
        simp [setStat, h, h1]

theorem nodup_keys_setStat {m : List (String × Stats)} (k : String) (v : Stats)
    (h : (m.map Prod.fst).Nodup) : ((setStat m k v).map Prod.fst).Nodup := by
  induction m with
  | nil => simp [setStat]
  | cons e rest ih =>
    obtain ⟨k', v'⟩ := e
    by_cases hk : k' = k
    · simp only [setStat, if_pos hk]
      simp only [List.map_cons, List.nodup_cons] at h ⊢
      exact ⟨hk ▸ h.1, h.2⟩
    · simp only [List.map_cons, List.nodup_cons] at h
      have hrest := ih h.2
      simp only [setStat, if_neg hk, List.map_cons, List.nodup_cons]
      refine ⟨fun hc => ?_, hrest⟩
      rcases keys_setStat k v rest with h1 | h1
      · exact h.1 (h1 ▸ hc)
      · rw [h1, List.mem_append] at hc
        rcases hc with hc | hc
        · exact h.1 hc
        · simp only [List.mem_singleton] at hc
          exact hk hc

/-! Characterisations of the individual aggregation steps. -/

/-- The valid quotes of an item (line 41's filter). -/
def validOf (it : Item) : List Quote := (it.prices.getD []).filter isValid

/-- The raw quote count of an item. -/
def rawCount (it : Item) : Nat := (it.prices.getD []).length

/-- Freshness of a quote as a function of the captured instant only. -/
def freshQ (n : Int) (q : Quote) : Bool :=
  match q.updated_at with
  | some t => fresh n t
  | none => false

theorem processValid_invalid (n l : Int) (nm : String) (st : AggState) (q : Quote)
    (h : isValid q = false) : processValid n l nm st q = st := by
  obtain ⟨pk, pr, ua⟩ := q
  cases pr <;> cases ua <;> simp_all [isValid, processValid]

theorem processValid_counters (n l : Int) (nm : String) (st : AggState) (q : Quote)
    (p t : Int) (hp : q.price = some p) (ht : q.updated_at = some t) :
    (processValid n l nm st q).totalPriceCount = st.totalPriceCount ∧
    (processValid n l nm st q).skippedPriceCount = st.skippedPriceCount ∧
    (processValid n l nm st q).upToDateCount
        = st.upToDateCount + (if fresh n t then 1 else 0) ∧
    (processValid n l nm st q).outdatedPrices = st.outdatedPrices ++
      (if fresh n t then [] else
        [{ item_name := nm, provider := q.provider_key, price := (p : ℚ) / 100
           updated_at := t, minutes_since_update := Int.fdiv (l - t) 60000 }]) := by
  obtain ⟨pk, pr, ua⟩ := q
  cases hp; cases ht
  simp only [processValid]
  split_ifs with h1 h2 h3 <;> simp

theorem processValid_stats_self (n l : Int) (nm : String) (st : AggState) (q : Quote)
    (p t : Int) (hp : q.price = some p) (ht : q.updated_at = some t) :
    lookupS (processValid n l nm st q).providerStats (keyOf q.provider_key) =
      some { total := ((lookupS st.providerStats (keyOf q.provider_key)).getD (initStats l)).total + 1
             upToDate := ((lookupS st.providerStats (keyOf q.provider_key)).getD (initStats l)).upToDate
               + (if fresh n t then 1 else 0)
             oldestUpdate :=
               min ((lookupS st.providerStats (keyOf q.provider_key)).getD (initStats l)).oldestUpdate t
             newestUpdate :=
               max ((lookupS st.providerStats (keyOf q.provider_key)).getD (initStats l)).newestUpdate t
             totalPrice := ((lookupS st.providerStats (keyOf q.provider_key)).getD (initStats l)).totalPrice + p
             skippedCount := ((lookupS st.providerStats (keyOf q.provider_key)).getD (initStats l)).skippedCount } := by
  obtain ⟨pk, pr, ua⟩ := q
  cases hp; cases ht
  simp only [processValid]
  split_ifs with h1 h2 h3 <;> simp_all [lookupS_setStat_self] <;> omega

theorem processValid_stats_ne (n l : Int) (nm : String) (st : AggState) (q : Quote)
    (k : String) (hk : k ≠ keyOf q.provider_key) :
    lookupS (processValid n l nm st q).providerStats k = lookupS st.providerStats k := by
  obtain ⟨pk, pr, ua⟩ := q
  cases pr <;> cases ua <;> simp only [processValid] <;> try rfl
  split_ifs <;> simp [lookupS_setStat_ne _ _ _ hk]

theorem processSkip_counters (l : Int) (st : AggState) (q : Quote) :
    (processSkip l st q).upToDateCount = st.upToDateCount ∧
    (processSkip l st q).totalPriceCount = st.totalPriceCount ∧
    (processSkip l st q).skippedPriceCount = st.skippedPriceCount ∧
    (processSkip l st q).outdatedPrices = st.outdatedPrices := by
  simp only [processSkip]
  split_ifs <;> simp

theorem processSkip_not_truthy (l : Int) (st : AggState) (q : Quote)
    (h : ((q.updated_at.isNone || q.price.isNone) && truthyKey q.provider_key) = false) :
    processSkip l st q = st := by
  simp [processSkip, h]

theorem processSkip_valid (l : Int) (st : AggState) (q : Quote)
    (h : isValid q = true) : processSkip l st q = st := by
  obtain ⟨pk, pr, ua⟩ := q
  cases pr <;> cases ua <;> simp_all [isValid, processSkip]

theorem processSkip_stats_self (l : Int) (st : AggState) (q : Quote)
    (h : ((q.updated_at.isNone || q.price.isNone) && truthyKey q.provider_key) = true) :
    lookupS (processSkip l st q).providerStats (keyOf q.provider_key) =
      some { ((lookupS st.providerStats (keyOf q.provider_key)).getD (initStats l)) with
             skippedCount :=
               ((lookupS st.providerStats (keyOf q.provider_key)).getD (initStats l)).skippedCount + 1 } := by
  simp [processSkip, h, lookupS_setStat_self]

theorem processSkip_stats_ne (l : Int) (st : AggState) (q : Quote)
    (k : String) (hk : k ≠ keyOf q.provider_key) :
    lookupS (processSkip l st q).providerStats k = lookupS st.providerStats k := by
  simp only [processSkip]
  split_ifs <;> simp [lookupS_setStat_ne _ _ _ hk]

theorem isValid_elim {q : Quote} (h : isValid q = true) :
    ∃ p t, q.price = some p ∧ q.updated_at = some t := by
  obtain ⟨pk, pr, ua⟩ := q
  cases pr <;> cases ua <;> simp_all [isValid]

theorem foldValid_counters (n l : Int) (nm : String) (qs : List Quote)
    (hq : ∀ q ∈ qs, isValid q = true) (st : AggState) :
    (qs.foldl (processValid n l nm) st).totalPriceCount = st.totalPriceCount ∧
    (qs.foldl (processValid n l nm) st).skippedPriceCount = st.skippedPriceCount ∧
    (qs.foldl (processValid n l nm) st).upToDateCount
        + (qs.foldl (processValid n l nm) st).outdatedPrices.length
      = st.upToDateCount + st.outdatedPrices.length + qs.length ∧
    (qs.foldl (processValid n l nm) st).upToDateCount
      = st.upToDateCount + (qs.filter (freshQ n)).length := by
  refine ⟨?_, ?_, ?_, ?_⟩
  · have h := foldl_delta (processValid n l nm) AggState.totalPriceCount
      (fun _ => 0) qs st (fun s a ha => by
        obtain ⟨p, t, hp, ht⟩ := isValid_elim (hq a ha)
        simpa using (processValid_counters n l nm s a p t hp ht).1)
    simpa using h
  · have h := foldl_delta (processValid n l nm) AggState.skippedPriceCount
      (fun _ => 0) qs st (fun s a ha => by
        obtain ⟨p, t, hp, ht⟩ := isValid_elim (hq a ha)
        simpa using (processValid_counters n l nm s a p t hp ht).2.1)
    simpa using h
  · have h := foldl_delta (processValid n l nm)
      (fun s => s.upToDateCount + s.outdatedPrices.length) (fun _ => 1) qs st
      (fun s a ha => by
        obtain ⟨p, t, hp, ht⟩ := isValid_elim (hq a ha)
        have hc := processValid_counters n l nm s a p t hp ht
        by_cases hf : fresh n t <;>
          simp [hc.2.2.1, hc.2.2.2, hf] <;> omega)
    simpa [List.map_const', List.sum_replicate] using h
  · have h := foldl_delta (processValid n l nm) AggState.upToDateCount
      (fun q => if freshQ n q then 1 else 0) qs st (fun s a ha => by
        obtain ⟨p, t, hp, ht⟩ := isValid_elim (hq a ha)
        have hc := (processValid_counters n l nm s a p t hp ht).2.2.1
        simp [hc, freshQ, ht])
    rw [h, sum_indicator]

theorem foldSkip_counters (l : Int) (qs : List Quote) (st : AggState) :
    (qs.foldl (processSkip l) st).upToDateCount = st.upToDateCount ∧
    (qs.foldl (processSkip l) st).totalPriceCount = st.totalPriceCount ∧
    (qs.foldl (processSkip l) st).skippedPriceCount = st.skippedPriceCount ∧
    (qs.foldl (processSkip l) st).outdatedPrices = st.outdatedPrices := by
  induction qs generalizing st with
  | nil => exact ⟨rfl, rfl, rfl, rfl⟩
  | cons q qs ih =>
    have h := processSkip_counters l st q
    have h2 := ih (processSkip l st q)
    simp only [List.foldl_cons]
    exact ⟨h2.1.trans h.1, h2.2.1.trans h.2.1, h2.2.2.1.trans h.2.2.1,
      h2.2.2.2.trans h.2.2.2⟩

theorem processItem_counters (n l : Int) (st : AggState) (it : Item) :
    (processItem n l st it).totalPriceCount = st.totalPriceCount + (validOf it).length ∧
    (processItem n l st it).skippedPriceCount
      = st.skippedPriceCount + (rawCount it - (validOf it).length) ∧
    (processItem n l st it).upToDateCount + (processItem n l st it).outdatedPrices.length
      = st.upToDateCount + st.outdatedPrices.length + (validOf it).length ∧
    (processItem n l st it).upToDateCount
      = st.upToDateCount + ((validOf it).filter (freshQ n)).length := by
  match hps : it.prices with
  | none => simp [processItem, hps, validOf, rawCount]
  | some ps =>
    have hval : validOf it = ps.filter isValid := by simp [validOf, hps]
    have hraw : rawCount it = ps.length := by simp [rawCount, hps]
    by_cases hlen : 0 < ps.length
    · have hmem : ∀ q ∈ ps.filter isValid, isValid q = true :=
        fun q hqm => (List.mem_filter.mp hqm).2
      simp only [processItem, hps, if_pos hlen]
      have h1 := foldValid_counters n l it.market_hash_name (ps.filter isValid) hmem
        { st with
          skippedPriceCount := st.skippedPriceCount + (ps.length - (ps.filter isValid).length)
          totalPriceCount := st.totalPriceCount + (ps.filter isValid).length }
      have h2 := foldSkip_counters l ps
        ((ps.filter isValid).foldl (processValid n l it.market_hash_name)
          { st with
            skippedPriceCount := st.skippedPriceCount + (ps.length - (ps.filter isValid).length)
            totalPriceCount := st.totalPriceCount + (ps.filter isValid).length })
      rw [hval, hraw]
      refine ⟨?_, ?_, ?_, ?_⟩
      · rw [h2.2.1, h1.1]
      · rw [h2.2.2.1, h1.2.1]
      · rw [h2.1, h2.2.2.2, h1.2.2.1]
      · rw [h2.1, h1.2.2.2]
    · have hnil : ps = [] := by
        cases ps
        · rfl
        · simp at hlen
      subst hnil
      simp [processItem, hps, hval, hraw]

theorem runAgg_counters (n l : Int) (s : List Item) :
    (runAgg n l s).totalPriceCount = (s.map fun it => (validOf it).length).sum ∧
    (runAgg n l s).skippedPriceCount
      = (s.map fun it => rawCount it - (validOf it).length).sum ∧
    (runAgg n l s).upToDateCount + (runAgg n l s).outdatedPrices.length
      = (s.map fun it => (validOf it).length).sum ∧
    (runAgg n l s).upToDateCount
      = (s.map fun it => ((validOf it).filter (freshQ n)).length).sum := by
  refine ⟨?_, ?_, ?_, ?_⟩
  · have h := foldl_delta (processItem n l) AggState.totalPriceCount
      (fun it => (validOf it).length) s initAgg
      (fun st it _ => (processItem_counters n l st it).1)
    simpa [runAgg, initAgg] using h
  · have h := foldl_delta (processItem n l) AggState.skippedPriceCount
      (fun it => rawCount it - (validOf it).length) s initAgg
      (fun st it _ => (processItem_counters n l st it).2.1)
    simpa [runAgg, initAgg] using h
  · have h := foldl_delta (processItem n l)
      (fun st => st.upToDateCount + st.outdatedPrices.length)
      (fun it => (validOf it).length) s initAgg
      (fun st it _ => (processItem_counters n l st it).2.2.1)
    simpa [runAgg, initAgg] using h
  · have h := foldl_delta (processItem n l) AggState.upToDateCount
      (fun it => ((validOf it).filter (freshQ n)).length) s initAgg
      (fun st it _ => (processItem_counters n l st it).2.2.2)
    simpa [runAgg, initAgg] using h

theorem foldValid_outdated_pres (n l : Int) (nm : String) (qs : List Quote)
    (hq : ∀ q ∈ qs, isValid q = true) (st : AggState)
    (hst : ∀ r ∈ st.outdatedPrices,
      r.minutes_since_update = Int.fdiv (l - r.updated_at) 60000 ∧
      r.updated_at < oneHourAgo n) :
    ∀ r ∈ (qs.foldl (processValid n l nm) st).outdatedPrices,
      r.minutes_since_update = Int.fdiv (l - r.updated_at) 60000 ∧
      r.updated_at < oneHourAgo n := by
  refine foldl_preserve (processValid n l nm)
    (fun st2 => ∀ r2 ∈ st2.outdatedPrices,
      r2.minutes_since_update = Int.fdiv (l - r2.updated_at) 60000 ∧
      r2.updated_at < oneHourAgo n) qs st (fun s2 q hqm hs2 => ?_) hst
  intro r2 hr2
  obtain ⟨p, t, hp, ht⟩ := isValid_elim (hq q hqm)
  rw [(processValid_counters n l nm s2 q p t hp ht).2.2.2] at hr2
  rcases List.mem_append.mp hr2 with h | h
  · exact hs2 r2 h
  · by_cases hf : fresh n t
    · simp [hf] at h
    · simp only [if_neg hf] at h
      rw [List.mem_singleton] at h
      subst h
      have ht2 : ¬ (oneHourAgo n ≤ t) := by
        intro hc
        simp [fresh, hc] at hf
      exact ⟨rfl, not_le.mp ht2⟩

/-- Every stale record's minute count is the floored minute difference
between the later clock reading `l` and the record's timestamp, and its
timestamp is strictly older than the cutoff computed from `n`. -/
theorem outdated_spec (n l : Int) (s : List Item) :
    ∀ r ∈ (runAgg n l s).outdatedPrices,
      r.minutes_since_update = Int.fdiv (l - r.updated_at) 60000 ∧
      r.updated_at < oneHourAgo n := by
  refine foldl_preserve (processItem n l)
    (fun st => ∀ r ∈ st.outdatedPrices,
      r.minutes_since_update = Int.fdiv (l - r.updated_at) 60000 ∧
      r.updated_at < oneHourAgo n) s initAgg (fun st it _ hst => ?_) (by simp [initAgg])
  match hps : it.prices with
  | none => simpa [processItem, hps] using hst
  | some ps =>
    by_cases hlen : 0 < ps.length
    · simp only [processItem, hps, if_pos hlen]
      intro r hr
      rw [(foldSkip_counters l ps _).2.2.2] at hr
      have hv : ∀ q ∈ ps.filter isValid, isValid q = true :=
        fun q hqm => (List.mem_filter.mp hqm).2
      refine foldValid_outdated_pres n l it.market_hash_name (ps.filter isValid) hv
        { st with
          skippedPriceCount := st.skippedPriceCount + (ps.length - (ps.filter isValid).length)
          totalPriceCount := st.totalPriceCount + (ps.filter isValid).length }
        (fun r2 hr2 => hst r2 hr2) r hr
    · simpa [processItem, hps, hlen] using hst

/-- Number of stale records attributed to provider key `k`. -/
def staleCountFor (st : AggState) (k : String) : Nat :=
  (st.outdatedPrices.filter fun r => keyOf r.provider == k).length

/-- Per-provider conservation: a key absent from the map has no stale
records, and a present entry satisfies `upToDate + stale = total`. -/
def provInv (st : AggState) : Prop :=
  (∀ k, lookupS st.providerStats k = none → staleCountFor st k = 0) ∧
  (∀ k v, lookupS st.providerStats k = some v →
    v.upToDate + staleCountFor st k = v.total)

theorem staleCountFor_processValid (n l : Int) (nm : String) (st : AggState)
    (q : Quote) (p t : Int) (hp : q.price = some p) (ht : q.updated_at = some t)
    (k : String) :
    staleCountFor (processValid n l nm st q) k =
      staleCountFor st k +
        (if fresh n t then 0 else if keyOf q.provider_key = k then 1 else 0) := by
  unfold staleCountFor
  rw [(processValid_counters n l nm st q p t hp ht).2.2.2, List.filter_append,
    List.length_append]
  by_cases hf : fresh n t
  · simp [hf]
  · by_cases hk : keyOf q.provider_key = k <;> simp [hf, hk]

theorem staleCountFor_processSkip (l : Int) (st : AggState) (q : Quote) (k : String) :
    staleCountFor (processSkip l st q) k = staleCountFor st k := by
  unfold staleCountFor
  rw [(processSkip_counters l st q).2.2.2]

theorem provInv_processValid (n l : Int) (nm : String) (st : AggState) (q : Quote)
    (h : provInv st) : provInv (processValid n l nm st q) := by
  by_cases hval : isValid q = true
  · obtain ⟨p, t, hp, ht⟩ := isValid_elim hval
    have hself := processValid_stats_self n l nm st q p t hp ht
    constructor
    · intro k hk
      by_cases hk0 : k = keyOf q.provider_key
      · rw [hk0, hself] at hk
        cases hk
      · rw [processValid_stats_ne n l nm st q k hk0] at hk
        rw [staleCountFor_processValid n l nm st q p t hp ht k]
        have h0 := h.1 k hk
        have hne : ¬ keyOf q.provider_key = k := fun hh => hk0 hh.symm
        by_cases hf : fresh n t
        · simp [hf, h0]
        · simp [hf, h0, hne]
    · intro k v hkv
      by_cases hk0 : k = keyOf q.provider_key
      · subst hk0
        rw [hself] at hkv
        injection hkv with hv
        subst hv
        rw [staleCountFor_processValid n l nm st q p t hp ht _]
        cases hlk : lookupS st.providerStats (keyOf q.provider_key) with
        | none =>
          have h0 := h.1 _ hlk
          by_cases hf : fresh n t <;> simp [hlk, initStats, hf, h0]
        | some v0 =>
          have h1 := h.2 _ v0 hlk
          by_cases hf : fresh n t <;> simp [hlk, hf] <;> omega
      · rw [processValid_stats_ne n l nm st q k hk0] at hkv
        rw [staleCountFor_processValid n l nm st q p t hp ht k]
        have h1 := h.2 k v hkv
        have hne : ¬ keyOf q.provider_key = k := fun hh => hk0 hh.symm
        by_cases hf : fresh n t <;> simp [hf, hne, h1]
  · rw [processValid_invalid n l nm st q (by simpa using hval)]
    exact h

theorem provInv_processSkip (l : Int) (st : AggState) (q : Quote)
    (h : provInv st) : provInv (processSkip l st q) := by
  by_cases hc : ((q.updated_at.isNone || q.price.isNone) && truthyKey q.provider_key) = true
  · have hself := processSkip_stats_self l st q hc
    constructor
    · intro k hk
      by_cases hk0 : k = keyOf q.provider_key
      · rw [hk0, hself] at hk
        cases hk
      · rw [processSkip_stats_ne l st q k hk0] at hk
        rw [staleCountFor_processSkip]
        exact h.1 k hk
    · intro k v hkv
      by_cases hk0 : k = keyOf q.provider_key
      · subst hk0
        rw [hself] at hkv
        injection hkv with hv
        subst hv
        rw [staleCountFor_processSkip]
        cases hlk : lookupS st.providerStats (keyOf q.provider_key) with
        | none =>
          have h0 := h.1 _ hlk
          simp [hlk, initStats, h0]
        | some v0 =>
          have h1 := h.2 _ v0 hlk
          simp [hlk]
          omega
      · rw [processSkip_stats_ne l st q k hk0] at hkv
        rw [staleCountFor_processSkip]
        exact h.2 k v hkv
  · rw [processSkip_not_truthy l st q (by simpa using hc)]
    exact h

theorem provInv_processItem (n l : Int) (st : AggState) (it : Item)
    (h : provInv st) : provInv (processItem n l st it) := by
  match hps : it.prices with
  | none => simpa [processItem, hps] using h
  | some ps =>
    by_cases hlen : 0 < ps.length
    · simp only [processItem, hps, if_pos hlen]
      refine foldl_preserve (processSkip l) provInv ps _
        (fun s2 q _ hs2 => provInv_processSkip l s2 q hs2) ?_
      exact foldl_preserve (processValid n l it.market_hash_name) provInv
        (ps.filter isValid) _
        (fun s2 q _ hs2 => provInv_processValid n l _ s2 q hs2) h
    · simpa [processItem, hps, hlen] using h

theorem provInv_runAgg (n l : Int) (s : List Item) : provInv (runAgg n l s) := by
  refine foldl_preserve (processItem n l) provInv s initAgg
    (fun st it _ h => provInv_processItem n l st it h) ⟨?_, ?_⟩
  · intro k _
    simp [staleCountFor, initAgg]
  · intro k v hkv
    simp [initAgg, lookupS] at hkv

/-- Generic preservation combinator for a predicate on aggregation
states, with membership information for the step hypotheses. -/
theorem inv_runAgg_mem (P : AggState → Prop) (n l : Int) (s : List Item)
    (hva : ∀ it ∈ s, ∀ st q, q ∈ validOf it → P st →
      P (processValid n l it.market_hash_name st q))
    (hsk : ∀ it ∈ s, ∀ st q, q ∈ it.prices.getD [] → P st → P (processSkip l st q))
    (hframe : ∀ st a b, P st →
      P { st with totalPriceCount := a, skippedPriceCount := b })
    (h0 : P initAgg) : P (runAgg n l s) := by
  refine foldl_preserve (processItem n l) P s initAgg (fun st it hit h => ?_) h0
  match hps : it.prices with
  | none => simpa [processItem, hps] using h
  | some ps =>
    by_cases hlen : 0 < ps.length
    · simp only [processItem, hps, if_pos hlen]
      refine foldl_preserve (processSkip l) P ps _
        (fun s2 q hq h2 => hsk it hit s2 q (by simpa [hps] using hq) h2) ?_
      refine foldl_preserve (processValid n l it.market_hash_name) P
        (ps.filter isValid) _
        (fun s2 q hq h2 => hva it hit s2 q (by simpa [validOf, hps] using hq) h2) ?_
      exact hframe st _ _ h
    · simpa [processItem, hps, hlen] using h

/-- Once a provider entry has data, its oldest update cannot exceed its
newest update. -/
def boundsInv (st : AggState) : Prop :=
  ∀ k v, lookupS st.providerStats k = some v → 0 < v.total →
    v.oldestUpdate ≤ v.newestUpdate

theorem boundsInv_processValid (n l : Int) (nm : String) (st : AggState)
    (q : Quote) (h : boundsInv st) : boundsInv (processValid n l nm st q) := by
  by_cases hval : isValid q = true
  · obtain ⟨p, t, hp, ht⟩ := isValid_elim hval
    have hself := processValid_stats_self n l nm st q p t hp ht
    intro k v hkv hv
    by_cases hk0 : k = keyOf q.provider_key
    · subst hk0
      rw [hself] at hkv
      injection hkv with hveq
      subst hveq
      exact le_trans (min_le_right _ _) (le_max_right _ _)
    · rw [processValid_stats_ne n l nm st q k hk0] at hkv
      exact h k v hkv hv
  · rw [processValid_invalid n l nm st q (by simpa using hval)]
    exact h

theorem boundsInv_processSkip (l : Int) (st : AggState) (q : Quote)
    (h : boundsInv st) : boundsInv (processSkip l st q) := by
  by_cases hc : ((q.updated_at.isNone || q.price.isNone) && truthyKey q.provider_key) = true
  · have hself := processSkip_stats_self l st q hc
    intro k v hkv hv
    by_cases hk0 : k = keyOf q.provider_key
    · subst hk0
      rw [hself] at hkv
      injection hkv with hveq
      subst hveq
      cases hlk : lookupS st.providerStats (keyOf q.provider_key) with
      | none => simp [hlk, initStats] at hv
      | some v0 =>
        have h2 := h _ v0 hlk
        simp only [hlk, Option.getD_some] at hv ⊢
        exact h2 hv
    · rw [processSkip_stats_ne l st q k hk0] at hkv
      exact h k v hkv hv
  · rw [processSkip_not_truthy l st q (by simpa using hc)]
    exact h

theorem boundsInv_runAgg (n l : Int) (s : List Item) : boundsInv (runAgg n l s) := by
  refine inv_runAgg_mem boundsInv n l s
    (fun it _ st q _ h => boundsInv_processValid n l it.market_hash_name st q h)
    (fun it _ st q _ h => boundsInv_processSkip l st q h)
    (fun st a b h => fun k v hkv hv => h k v hkv hv)
    (fun k v hkv => by simp [initAgg, lookupS] at hkv)

/-- No provider entry records an update newer than the bound `n`. -/
def newestInv (n : Int) (st : AggState) : Prop :=
  ∀ k v, lookupS st.providerStats k = some v → v.newestUpdate ≤ n

theorem newestInv_processValid (n l : Int) (nm : String) (st : AggState)
    (q : Quote) (hn : 0 ≤ n) (htq : ∀ t, q.updated_at = some t → t ≤ n)
    (h : newestInv n st) : newestInv n (processValid n l nm st q) := by
  by_cases hval : isValid q = true
  · obtain ⟨p, t, hp, ht⟩ := isValid_elim hval
    have hself := processValid_stats_self n l nm st q p t hp ht
    intro k v hkv
    by_cases hk0 : k = keyOf q.provider_key
    · subst hk0
      rw [hself] at hkv
      injection hkv with hveq
      subst hveq
      have htn : t ≤ n := htq t ht
      cases hlk : lookupS st.providerStats (keyOf q.provider_key) with
      | none =>
        simp only [hlk, Option.getD_none, initStats]
        exact max_le hn htn
      | some v0 =>
        have h2 := h _ v0 hlk
        simp only [hlk, Option.getD_some]
        exact max_le h2 htn
    · rw [processValid_stats_ne n l nm st q k hk0] at hkv
      exact h k v hkv
  · rw [processValid_invalid n l nm st q (by simpa using hval)]
    exact h

theorem newestInv_processSkip (n l : Int) (st : AggState) (q : Quote)
    (hn : 0 ≤ n) (h : newestInv n st) : newestInv n (processSkip l st q) := by
  by_cases hc : ((q.updated_at.isNone || q.price.isNone) && truthyKey q.provider_key) = true
  · have hself := processSkip_stats_self l st q hc
    intro k v hkv
    by_cases hk0 : k = keyOf q.provider_key
    · subst hk0
      rw [hself] at hkv
      injection hkv with hveq
      subst hveq
      cases hlk : lookupS st.providerStats (keyOf q.provider_key) with
      | none => simpa [hlk, initStats] using hn
      | some v0 =>
        have h2 := h _ v0 hlk
        simpa [hlk] using h2
    · rw [processSkip_stats_ne l st q k hk0] at hkv
      exact h k v hkv
  · rw [processSkip_not_truthy l st q (by simpa using hc)]
    exact h

theorem newestInv_runAgg (n l : Int) (s : List Item) (hn : 0 ≤ n)
    (hts : ∀ it ∈ s, ∀ q ∈ validOf it, q.updated_at.getD 0 ≤ n) :
    newestInv n (runAgg n l s) := by
  refine inv_runAgg_mem (newestInv n) n l s
    (fun it hit st q hq h =>
      newestInv_processValid n l it.market_hash_name st q hn
        (fun t ht => by
          have h2 := hts it hit q hq
          rw [ht] at h2
          simpa using h2) h)
    (fun it _ st q _ h => newestInv_processSkip n l st q hn h)
    (fun st a b h => fun k v hkv => h k v hkv)
    (fun k v hkv => by simp [initAgg, lookupS] at hkv)

/-- The provider map never holds two entries with the same key. -/
def keysInv (st : AggState) : Prop := (st.providerStats.map Prod.fst).Nodup

theorem processValid_stats_shape (n l : Int) (nm : String) (st : AggState) (q : Quote) :
    (processValid n l nm st q).providerStats = st.providerStats ∨
    ∃ v, (processValid n l nm st q).providerStats
      = setStat st.providerStats (keyOf q.provider_key) v := by
  obtain ⟨pk, pr, ua⟩ := q
  cases pr <;> cases ua <;> simp only [processValid]
  · exact Or.inl trivial
  · exact Or.inl trivial
  · exact Or.inl trivial
  · split_ifs <;> exact Or.inr ⟨_, rfl⟩

theorem processSkip_stats_shape (l : Int) (st : AggState) (q : Quote) :
    (processSkip l st q).providerStats = st.providerStats ∨
    ∃ v, (processSkip l st q).providerStats
      = setStat st.providerStats (keyOf q.provider_key) v := by
  simp only [processSkip]
  split_ifs
  · exact Or.inr ⟨_, rfl⟩
  · exact Or.inl rfl

theorem keysInv_runAgg (n l : Int) (s : List Item) : keysInv (runAgg n l s) := by
  refine inv_runAgg_mem keysInv n l s
    (fun it _ st q _ h => ?_) (fun it _ st q _ h => ?_)
    (fun st a b h => h) (by simp [keysInv, initAgg])
  · unfold keysInv
    rcases processValid_stats_shape n l it.market_hash_name st q with hs | ⟨v, hs⟩ <;>
      rw [hs]
    · exact h
    · exact nodup_keys_setStat _ _ h
  · unfold keysInv
    rcases processSkip_stats_shape l st q with hs | ⟨v, hs⟩ <;> rw [hs]
    · exact h
    · exact nodup_keys_setStat _ _ h

/-! Ranking fold characterisation. -/

/-- The best-tracking half of one ranking-loop iteration. -/
def bestStep (b : String × ℚ) (e : String × Stats) : String × ℚ :=
  if 0 < e.2.total then (if b.2 < pctOf e.2 then (e.1, pctOf e.2) else b) else b

/-- The worst-tracking half of one ranking-loop iteration. -/
def worstStep (w : String × ℚ) (e : String × Stats) : String × ℚ :=
  if 0 < e.2.total then (if pctOf e.2 < w.2 then (e.1, pctOf e.2) else w) else w

theorem rankStep_eq (acc : (String × ℚ) × (String × ℚ)) (e : String × Stats) :
    rankStep acc e = (bestStep acc.1 e, worstStep acc.2 e) := by
  obtain ⟨⟨bn, bp⟩, ⟨wn, wp⟩⟩ := acc
  simp only [rankStep, bestStep, worstStep]
  split_ifs <;> rfl

theorem rankings_eq (m : List (String × Stats)) :
    rankings m = (m.foldl bestStep ("", -1), m.foldl worstStep ("", 101)) := by
  suffices h : ∀ acc : (String × ℚ) × (String × ℚ),
      m.foldl rankStep acc = (m.foldl bestStep acc.1, m.foldl worstStep acc.2) by
    exact h (("", -1), ("", 101))
  induction m with
  | nil => intro acc; rfl
  | cons e rest ih =>
    intro acc
    simp only [List.foldl_cons, rankStep_eq]
    exact ih _

/-- First entry with data attaining the maximum rounded percentage, in
encounter order: an earlier entry survives against a later one unless the
later percentage is strictly greater. -/
def specBest : List (String × Stats) → Option (String × ℚ)
  | [] => none
  | e :: rest =>
    if 0 < e.2.total then
      match specBest rest with
      | none => some (e.1, pctOf e.2)
      | some (k, p) => if pctOf e.2 < p then some (k, p) else some (e.1, pctOf e.2)
    else specBest rest

/-- First entry with data attaining the minimum rounded percentage, in
encounter order. -/
def specWorst : List (String × Stats) → Option (String × ℚ)
  | [] => none
  | e :: rest =>
    if 0 < e.2.total then
      match specWorst rest with
      | none => some (e.1, pctOf e.2)
      | some (k, p) => if p < pctOf e.2 then some (k, p) else some (e.1, pctOf e.2)
    else specWorst rest

theorem foldB_spec : ∀ (m : List (String × Stats)) (b : String × ℚ),
    m.foldl bestStep b = (match specBest m with
      | none => b
      | some (k, p) => if b.2 < p then (k, p) else b)
  | [], b => rfl
  | e :: rest, b => by
    simp only [List.foldl_cons, specBest]
    by_cases he : 0 < e.2.total
    · simp only [if_pos he]
      rw [foldB_spec rest (bestStep b e)]
      cases hsb : specBest rest with
      | none => simp [bestStep, he]
      | some kp =>
        obtain ⟨k, p⟩ := kp
        simp only [bestStep, if_pos he]
        by_cases hb : b.2 < pctOf e.2
        · by_cases hp : pctOf e.2 < p
          · have hbp : b.2 < p := lt_trans hb hp
            simp [hb, hp, hbp]
          · simp [hb, hp]
        · by_cases hp : pctOf e.2 < p
          · simp [hb, hp]
          · have hbp : ¬ b.2 < p := fun hc => hb (lt_of_lt_of_le hc (not_lt.mp hp))
            simp [hb, hp, hbp]
    · simp only [if_neg he]
      rw [foldB_spec rest (bestStep b e)]
      simp [bestStep, he]

theorem foldW_spec : ∀ (m : List (String × Stats)) (w : String × ℚ),
    m.foldl worstStep w = (match specWorst m with
      | none => w
      | some (k, p) => if p < w.2 then (k, p) else w)
  | [], w => rfl
  | e :: rest, w => by
    simp only [List.foldl_cons, specWorst]
    by_cases he : 0 < e.2.total
    · simp only [if_pos he]
      rw [foldW_spec rest (worstStep w e)]
      cases hsb : specWorst rest with
      | none => simp [worstStep, he]
      | some kp =>
        obtain ⟨k, p⟩ := kp
        simp only [worstStep, if_pos he]
        by_cases hb : pctOf e.2 < w.2
        · by_cases hp : p < pctOf e.2
          · have hbp : p < w.2 := lt_trans hp hb
            simp [hb, hp, hbp]
          · simp [hb, hp]
        · by_cases hp : p < pctOf e.2
          · simp [hb, hp]
          · have hbp : ¬ p < w.2 := fun hc => hb (lt_of_le_of_lt (not_lt.mp hp) hc)
            simp [hb, hp, hbp]
    · simp only [if_neg he]
      rw [foldW_spec rest (worstStep w e)]
      simp [worstStep, he]

theorem specBest_mem : ∀ (m : List (String × Stats)) (k : String) (p : ℚ),
    specBest m = some (k, p) → ∃ s, (k, s) ∈ m ∧ 0 < s.total ∧ p = pctOf s
  | [], k, p => by simp [specBest]
  | e :: rest, k, p => by
    simp only [specBest]
    by_cases he : 0 < e.2.total
    · simp only [if_pos he]
      cases hsb : specBest rest with
      | none =>
        intro h
        rw [Option.some.injEq, Prod.mk.injEq] at h
        obtain ⟨rfl, rfl⟩ := h
        exact ⟨e.2, List.mem_cons_self _ _, he, rfl⟩
      | some kp =>
        obtain ⟨k', p'⟩ := kp
        by_cases hp : pctOf e.2 < p'
        · simp only [if_pos hp]
          intro h
          rw [Option.some.injEq, Prod.mk.injEq] at h
          obtain ⟨rfl, rfl⟩ := h
          obtain ⟨s, hs, h1, h2⟩ := specBest_mem rest _ _ hsb
          exact ⟨s, List.mem_cons_of_mem _ hs, h1, h2⟩
        · simp only [if_neg hp]
          intro h
          rw [Option.some.injEq, Prod.mk.injEq] at h
          obtain ⟨rfl, rfl⟩ := h
          exact ⟨e.2, List.mem_cons_self _ _, he, rfl⟩
    · simp only [if_neg he]
      intro h
      obtain ⟨s, hs, h1, h2⟩ := specBest_mem rest k p h
      exact ⟨s, List.mem_cons_of_mem _ hs, h1, h2⟩

theorem specWorst_mem : ∀ (m : List (String × Stats)) (k : String) (p : ℚ),
    specWorst m = some (k, p) → ∃ s, (k, s) ∈ m ∧ 0 < s.total ∧ p = pctOf s
  | [], k, p => by simp [specWorst]
  | e :: rest, k, p => by
    simp only [specWorst]
    by_cases he : 0 < e.2.total
    · simp only [if_pos he]
      cases hsb : specWorst rest with
      | none =>
        intro h
        rw [Option.some.injEq, Prod.mk.injEq] at h
        obtain ⟨rfl, rfl⟩ := h
        exact ⟨e.2, List.mem_cons_self _ _, he, rfl⟩
      | some kp =>
        obtain ⟨k', p'⟩ := kp
        by_cases hp : p' < pctOf e.2
        · simp only [if_pos hp]
          intro h
          rw [Option.some.injEq, Prod.mk.injEq] at h
          obtain ⟨rfl, rfl⟩ := h
          obtain ⟨s, hs, h1, h2⟩ := specWorst_mem rest _ _ hsb
          exact ⟨s, List.mem_cons_of_mem _ hs, h1, h2⟩
        · simp only [if_neg hp]
          intro h
          rw [Option.some.injEq, Prod.mk.injEq] at h
          obtain ⟨rfl, rfl⟩ := h
          exact ⟨e.2, List.mem_cons_self _ _, he, rfl⟩
    · simp only [if_neg he]
      intro h
      obtain ⟨s, hs, h1, h2⟩ := specWorst_mem rest k p h
      exact ⟨s, List.mem_cons_of_mem _ hs, h1, h2⟩

theorem toFixed2_nonneg {q : ℚ} (h : 0 ≤ q) : 0 ≤ toFixed2 q := by
  unfold toFixed2
  have h1 : (0 : ℤ) ≤ ⌊q * 100 + 1 / 2⌋ := by
    apply Int.le_floor.mpr
    push_cast
    linarith
  have h2 : (0 : ℚ) ≤ (⌊q * 100 + 1 / 2⌋ : ℤ) := by exact_mod_cast h1
  linarith

theorem toFixed2_le_100 {q : ℚ} (h : q ≤ 100) : toFixed2 q ≤ 100 := by
  unfold toFixed2
  have h1 : ⌊q * 100 + 1 / 2⌋ ≤ ⌊(20001 : ℚ) / 2⌋ :=
    Int.floor_le_floor (by linarith)
  have h2 : ⌊(20001 : ℚ) / 2⌋ = 10000 := by
    rw [Int.floor_eq_iff]
    norm_num
  rw [h2] at h1
  have h3 : ((⌊q * 100 + 1 / 2⌋ : ℤ) : ℚ) ≤ 10000 := by exact_mod_cast h1
  linarith

theorem pctOf_nonneg (s : Stats) : 0 ≤ pctOf s := by
  unfold pctOf
  apply toFixed2_nonneg
  positivity

theorem pctOf_le_100 {s : Stats} (h : s.upToDate ≤ s.total) : pctOf s ≤ 100 := by
  unfold pctOf
  apply toFixed2_le_100
  rcases Nat.eq_zero_or_pos s.total with h0 | h0
  · have hu : s.upToDate = 0 := by omega
    simp [h0, hu]
  · have hle : ((s.upToDate : ℚ)) / (s.total : ℚ) ≤ 1 := by
      rw [div_le_one (by exact_mod_cast h0)]
      exact_mod_cast h
    linarith

theorem bestReported_spec (m : List (String × Stats)) (hk : ∀ e ∈ m, e.1 ≠ "") :
    bestReported m = specBest m := by
  have h1 : (rankings m).1 = (match specBest m with
      | none => (("" : String), (-1 : ℚ))
      | some (k, p) => if (-1 : ℚ) < p then (k, p) else ("", -1)) := by
    rw [rankings_eq]
    rw [foldB_spec m ("", -1)]
  unfold bestReported
  rw [h1]
  cases hsb : specBest m with
  | none => simp
  | some kp =>
    obtain ⟨k, p⟩ := kp
    obtain ⟨s, hsm, hst, rfl⟩ := specBest_mem m _ _ hsb
    have hp0 : (-1 : ℚ) < pctOf s := lt_of_lt_of_le (by norm_num) (pctOf_nonneg s)
    simp [hp0, hk (k, s) hsm]

theorem worstReported_spec (m : List (String × Stats))
    (hub : ∀ e ∈ m, e.2.upToDate ≤ e.2.total) (hk : ∀ e ∈ m, e.1 ≠ "") :
    worstReported m = specWorst m := by
  have h1 : (rankings m).2 = (match specWorst m with
      | none => (("" : String), (101 : ℚ))
      | some (k, p) => if p < (101 : ℚ) then (k, p) else ("", 101)) := by
    rw [rankings_eq]
    rw [foldW_spec m ("", 101)]
  unfold worstReported
  rw [h1]
  cases hsb : specWorst m with
  | none => simp
  | some kp =>
    obtain ⟨k, p⟩ := kp
    obtain ⟨s, hsm, hst, rfl⟩ := specWorst_mem m _ _ hsb
    have hp0 : pctOf s < 101 :=
      lt_of_le_of_lt (pctOf_le_100 (hub (k, s) hsm)) (by norm_num)
    simp [hp0, hk (k, s) hsm]

theorem bestReported_mem (m : List (String × Stats)) (k : String) (p : ℚ)
    (h : bestReported m = some (k, p)) : ∃ s, (k, s) ∈ m ∧ 0 < s.total := by
  unfold bestReported at h
  rw [rankings_eq] at h
  rw [foldB_spec m ("", -1)] at h
  cases hsb : specBest m with
  | none =>
    rw [hsb] at h
    simp at h
  | some kp =>
    obtain ⟨k', p'⟩ := kp
    rw [hsb] at h
    obtain ⟨s, hsm, hst, rfl⟩ := specBest_mem m _ _ hsb
    have hp0 : (-1 : ℚ) < pctOf s := lt_of_lt_of_le (by norm_num) (pctOf_nonneg s)
    simp only [hp0, if_pos] at h
    split_ifs at h
    rw [Option.some.injEq, Prod.mk.injEq] at h
    obtain ⟨rfl, rfl⟩ := h
    exact ⟨s, hsm, hst⟩

theorem worstReported_mem (m : List (String × Stats)) (k : String) (p : ℚ)
    (hub : ∀ e ∈ m, e.2.upToDate ≤ e.2.total)
    (h : worstReported m = some (k, p)) : ∃ s, (k, s) ∈ m ∧ 0 < s.total := by
  unfold worstReported at h
  rw [rankings_eq] at h
  rw [foldW_spec m ("", 101)] at h
  cases hsb : specWorst m with
  | none =>
    rw [hsb] at h
    simp at h
  | some kp =>
    obtain ⟨k', p'⟩ := kp
    rw [hsb] at h
    obtain ⟨s, hsm, hst, rfl⟩ := specWorst_mem m _ _ hsb
    have hp0 : pctOf s < 101 :=
      lt_of_le_of_lt (pctOf_le_100 (hub (k', s) hsm)) (by norm_num)
    simp only [hp0, if_pos] at h
    split_ifs at h
    rw [Option.some.injEq, Prod.mk.injEq] at h
    obtain ⟨rfl, rfl⟩ := h
    exact ⟨s, hsm, hst⟩

theorem lookupS_mem : ∀ {m : List (String × Stats)} {k : String} {v : Stats},
    lookupS m k = some v → (k, v) ∈ m
  | [], k, v, h => by cases h
  | (k', v') :: rest, k, v, h => by
    by_cases hk : k' = k
    · subst hk
      rw [lookupS, if_pos rfl] at h
      injection h with h
      subst h
      exact List.mem_cons_self _ _
    · rw [lookupS, if_neg hk] at h
      exact List.mem_cons_of_mem _ (lookupS_mem h)

theorem keyOf_ne_empty {pk : Option String} (h : pk ≠ some "") : keyOf pk ≠ "" := by
  cases pk with
  | none => simp [keyOf]
  | some s => simpa [keyOf] using fun hs => h (by rw [hs])

/-- If no quote carries an empty-string provider key, neither does any
key of the provider map. -/
theorem keysNE_runAgg (n l : Int) (s : List Item)
    (hk : ∀ it ∈ s, ∀ q ∈ it.prices.getD [], q.provider_key ≠ some "") :
    ∀ e ∈ (runAgg n l s).providerStats, e.1 ≠ "" := by
  refine inv_runAgg_mem (fun st => ∀ e ∈ st.providerStats, e.1 ≠ "") n l s
    ?_ ?_ (fun st a b h => h) (by simp [initAgg])
  · intro it hit st q hq h e he
    rcases processValid_stats_shape n l it.market_hash_name st q with hs | ⟨v, hs⟩
    · rw [hs] at he
      exact h e he
    · rw [hs] at he
      rcases mem_setStat _ _ _ he with rfl | hm
      · exact keyOf_ne_empty
          (hk it hit q (List.mem_of_mem_filter (by simpa [validOf] using hq)))
      · exact h e hm
  · intro it hit st q hq h e he
    rcases processSkip_stats_shape l st q with hs | ⟨v, hs⟩
    · rw [hs] at he
      exact h e he
    · rw [hs] at he
      rcases mem_setStat _ _ _ he with rfl | hm
      · exact keyOf_ne_empty (hk it hit q hq)
      · exact h e hm

theorem upToDate_le_total_runAgg (n l : Int) (s : List Item) :
    ∀ e ∈ (runAgg n l s).providerStats, e.2.upToDate ≤ e.2.total := by
  intro e he
  obtain ⟨k, v⟩ := e
  have hl := lookupS_of_mem_nodup (keysInv_runAgg n l s) he
  have h2 := (provInv_runAgg n l s).2 k v hl
  simp only []
  omega

theorem sum_valid_skip (s : List Item) :
    (s.map fun it => (validOf it).length).sum
      + (s.map fun it => rawCount it - (validOf it).length).sum
      = (s.map rawCount).sum := by
  induction s with
  | nil => simp
  | cons it s ih =>
    have hle : (validOf it).length ≤ rawCount it := by
      simpa [validOf, rawCount] using
        List.length_filter_le isValid (it.prices.getD [])
    simp only [List.map_cons, List.sum_cons]
    omega

/-- Example snapshot with one fresh quote (steam), one stale quote
(buff163) and one invalid quote carrying a provider key (youpin);
evaluated at the instant 6000000 ms with the 60-minute window. -/
def sampleSnap : List Item :=
  [{ market_hash_name := "Widget"
     prices := some
       [ { provider_key := some "steam", price := some 1000, updated_at := some 4200000 }
       , { provider_key := some "buff163", price := some 2000, updated_at := some 600000 }
       , { provider_key := some "youpin", price := none, updated_at := some 6000000 } ] }]

/-- The final buff163 entry of `sampleSnap`'s run. -/
def sBuff : Stats :=
  { total := 1, upToDate := 0, oldestUpdate := 600000, newestUpdate := 600000
    totalPrice := 2000, skippedCount := 0 }

/-- C1: counter conservation.  Globally, valid plus skipped quotes
account for every raw quote, fresh plus stale accounts for every valid
quote, and per provider the entry's fresh count plus its stale-record
count equals its total of valid quotes. -/
theorem C1_counter_conservation (n l : Int) (s : List Item) :
    (runAgg n l s).totalPriceCount + (runAgg n l s).skippedPriceCount
        = (s.map rawCount).sum ∧
    (runAgg n l s).upToDateCount + (runAgg n l s).outdatedPrices.length
        = (runAgg n l s).totalPriceCount ∧
    ∀ k v, lookupS (runAgg n l s).providerStats k = some v →
        v.upToDate + staleCountFor (runAgg n l s) k = v.total := by
  have h := runAgg_counters n l s
  refine ⟨?_, ?_, (provInv_runAgg n l s).2⟩
  · rw [h.1, h.2.1]
    exact sum_valid_skip s
  · rw [h.2.2.1, h.1]

/-- C1 witness at a concrete snapshot. -/
theorem C1_counter_conservation_witness :
    (runAgg 6000000 6000000 sampleSnap).totalPriceCount
        + (runAgg 6000000 6000000 sampleSnap).skippedPriceCount
      = (sampleSnap.map rawCount).sum ∧
    sBuff.upToDate + staleCountFor (runAgg 6000000 6000000 sampleSnap) "buff163"
      = sBuff.total :=
  ⟨(C1_counter_conservation 6000000 6000000 sampleSnap).1,
   (C1_counter_conservation 6000000 6000000 sampleSnap).2.2 "buff163" sBuff (by decide)⟩

/-- C2: the freshness boundary is inclusive: a valid quote bumps the
fresh counter exactly when `updated_at >= now - window`, appends a stale
record otherwise, and a quote exactly at the boundary counts fresh. -/
theorem C2_fresh_boundary_inclusive (n l : Int) (nm : String) (st : AggState)
    (q : Quote) (p t : Int) (hp : q.price = some p) (ht : q.updated_at = some t) :
    ((processValid n l nm st q).upToDateCount
        = st.upToDateCount + (if oneHourAgo n ≤ t then 1 else 0)) ∧
    ((processValid n l nm st q).outdatedPrices.length
        = st.outdatedPrices.length + (if oneHourAgo n ≤ t then 0 else 1)) ∧
    (t = oneHourAgo n →
      (processValid n l nm st q).upToDateCount = st.upToDateCount + 1 ∧
      (processValid n l nm st q).outdatedPrices = st.outdatedPrices) := by
  have hc := processValid_counters n l nm st q p t hp ht
  have hfr : fresh n t = decide (oneHourAgo n ≤ t) := rfl
  refine ⟨?_, ?_, ?_⟩
  · rw [hc.2.2.1, hfr]
    by_cases hle : oneHourAgo n ≤ t <;> simp [hle]
  · rw [hc.2.2.2, hfr]
    by_cases hle : oneHourAgo n ≤ t <;> simp [hle]
  · intro hb
    have hle : oneHourAgo n ≤ t := le_of_eq hb.symm
    constructor
    · rw [hc.2.2.1, hfr]
      simp [hle]
    · rw [hc.2.2.2, hfr]
      simp [hle]

/-- C2 witness: a quote exactly at `now - window` is fresh. -/
theorem C2_fresh_boundary_inclusive_witness :
    (processValid 3600000 3600000 "X" initAgg
        { provider_key := some "steam", price := some 100, updated_at := some 0 }).upToDateCount
      = initAgg.upToDateCount + 1 ∧
    (processValid 3600000 3600000 "X" initAgg
        { provider_key := some "steam", price := some 100, updated_at := some 0 }).outdatedPrices
      = initAgg.outdatedPrices :=
  (C2_fresh_boundary_inclusive 3600000 3600000 "X" initAgg
    { provider_key := some "steam", price := some 100, updated_at := some 0 }
    100 0 rfl rfl).2.2 (by decide)

/-- C10: every stale record shows at least 60 minutes since update, as
long as the later clock reading is not before the captured one. -/
theorem C10_stale_minutes_ge_60 (n l : Int) (s : List Item) (hnl : n ≤ l) :
    ∀ r ∈ (runAgg n l s).outdatedPrices, 60 ≤ r.minutes_since_update := by
  intro r hr
  obtain ⟨hm, hb⟩ := outdated_spec n l s r hr
  rw [hm]
  unfold oneHourAgo at hb
  rw [Int.fdiv_eq_ediv _ (by norm_num)]
  omega

theorem sampleStale_ne_nil :
    (runAgg 6000000 6000000 sampleSnap).outdatedPrices ≠ [] := by decide

/-- C10 witness at a concrete stale record. -/
theorem C10_stale_minutes_ge_60_witness :
    60 ≤ ((runAgg 6000000 6000000 sampleSnap).outdatedPrices.head
      sampleStale_ne_nil).minutes_since_update :=
  C10_stale_minutes_ge_60 6000000 6000000 sampleSnap (by decide) _
    (List.head_mem sampleStale_ne_nil)

/-- C8 amended: once a provider has data its oldest update never exceeds
its newest; the further bound `newestUpdate <= now` holds whenever `now`
is non-negative and no valid quote is dated in the future. -/
theorem C8_update_bounds_amended (n l : Int) (s : List Item) :
    (∀ k v, lookupS (runAgg n l s).providerStats k = some v → 0 < v.total →
        v.oldestUpdate ≤ v.newestUpdate) ∧
    (0 ≤ n → (∀ it ∈ s, ∀ q ∈ validOf it, q.updated_at.getD 0 ≤ n) →
      ∀ k v, lookupS (runAgg n l s).providerStats k = some v →
        v.newestUpdate ≤ n) :=
  ⟨boundsInv_runAgg n l s, fun hn hts => newestInv_runAgg n l s hn hts⟩

/-- C8 witness at a concrete snapshot. -/
theorem C8_update_bounds_amended_witness :
    sBuff.oldestUpdate ≤ sBuff.newestUpdate ∧ sBuff.newestUpdate ≤ 6000000 :=
  ⟨(C8_update_bounds_amended 6000000 6000000 sampleSnap).1 "buff163" sBuff
      (by decide) (by decide),
   (C8_update_bounds_amended 6000000 6000000 sampleSnap).2 (by decide) (by decide)
      "buff163" sBuff (by decide)⟩

/-- A quote dated one minute in the future of the run instant 1000000. -/
def futureSnap : List Item :=
  [{ market_hash_name := "F"
     prices := some
       [ { provider_key := some "steam", price := some 100, updated_at := some 1060000 } ] }]

/-- C8 counterexample: a future-dated valid quote drives `newestUpdate`
past `now`, so `oldestUpdate <= newestUpdate <= now` fails as stated. -/
theorem C8_update_bounds_counterexample :
    lookupS (runAgg 1000000 1000000 futureSnap).providerStats "steam"
      = some { total := 1, upToDate := 1, oldestUpdate := 1000000
               newestUpdate := 1060000, totalPrice := 100, skippedCount := 0 } ∧
    ¬ ((1060000 : Int) ≤ 1000000) := by
  refine ⟨by decide, by decide⟩

/-- Quotes counted fresh, as a function of the snapshot and the captured
instant only. -/
def freshTotal (n : Int) (s : List Item) : Nat :=
  (s.map fun it => ((validOf it).filter (freshQ n)).length).sum

/-- C4 amended: classification and the fresh counter depend only on the
snapshot and the instant captured at line 25, while every stale record's
minute count is computed from the later clock reading; the run is a pure
function of the snapshot and the clock readings. -/
theorem C4_single_instant_amended (n l : Int) (s : List Item) :
    (runAgg n l s).upToDateCount = freshTotal n s ∧
    ∀ r ∈ (runAgg n l s).outdatedPrices,
      r.minutes_since_update = Int.fdiv (l - r.updated_at) 60000 ∧
      r.updated_at < oneHourAgo n :=
  ⟨(runAgg_counters n l s).2.2.2, outdated_spec n l s⟩

theorem sampleStaleLater_ne_nil :
    (runAgg 6000000 6200000 sampleSnap).outdatedPrices ≠ [] := by decide

/-- C4 witness with distinct clock readings. -/
theorem C4_single_instant_amended_witness :
    (runAgg 6000000 6200000 sampleSnap).upToDateCount = freshTotal 6000000 sampleSnap ∧
    ((runAgg 6000000 6200000 sampleSnap).outdatedPrices.head
        sampleStaleLater_ne_nil).minutes_since_update
      = Int.fdiv (6200000 - ((runAgg 6000000 6200000 sampleSnap).outdatedPrices.head
        sampleStaleLater_ne_nil).updated_at) 60000 :=
  ⟨(C4_single_instant_amended 6000000 6200000 sampleSnap).1,
   ((C4_single_instant_amended 6000000 6200000 sampleSnap).2 _
      (List.head_mem sampleStaleLater_ne_nil)).1⟩

/-- C4 counterexample: two runs over the same snapshot with the same
captured instant 6000000 but different later clock readings disagree on
`minutes_since_update` (92 versus 90 minutes), refuting the claim that
the single captured `now` is used by every component. -/
theorem C4_single_instant_counterexample :
    ((runAgg 6000000 6120000 sampleSnap).outdatedPrices.map
        StaleRecord.minutes_since_update = [92]) ∧
    ((runAgg 6000000 6000000 sampleSnap).outdatedPrices.map
        StaleRecord.minutes_since_update = [90]) := by
  refine ⟨by decide, by decide⟩

/-- Freshness classifier as the spec words it, parametric in a
configurable window `w`: quotes at or after `now - w` are fresh.  Used
to compare the source's hard-coded classifier against the configurable
one the spec requires. -/
def specFreshW (w n t : Int) : Bool := n - w ≤ t

/-- C6 amended: the ledger is produced iff the stale sequence is
non-empty, and then carries the generation instant, the stale count, the
stale records in aggregation order, and the hard-coded threshold 60. -/
theorem C6_ledger_amended (n l : Int) (s : List Item) :
    (ledgerOfRun n l s = none ↔ (runAgg n l s).outdatedPrices = []) ∧
    ∀ L, ledgerOfRun n l s = some L →
      L.generated_at = l ∧
      L.total_outdated_prices = (runAgg n l s).outdatedPrices.length ∧
      L.prices = (runAgg n l s).outdatedPrices ∧
      L.time_threshold_minutes = 60 := by
  unfold ledgerOfRun buildLedger
  by_cases h : 0 < (runAgg n l s).outdatedPrices.length
  · simp only [if_pos h]
    refine ⟨⟨fun hc => Option.noConfusion hc, fun hc => ?_⟩, ?_⟩
    · rw [hc] at h
      simp at h
    intro L hL
    injection hL with hL
    subst hL
    exact ⟨rfl, rfl, rfl, rfl⟩
  · simp only [if_neg h]
    have hnil : (runAgg n l s).outdatedPrices = [] := by
      cases hE : (runAgg n l s).outdatedPrices with
      | nil => rfl
      | cons a as => rw [hE] at h; simp at h
    simp [hnil]

theorem sampleLedger_isSome :
    (ledgerOfRun 6000000 6000000 sampleSnap).isSome = true := by decide

/-- C6 witness at a concrete run with one stale record. -/
theorem C6_ledger_amended_witness :
    ((ledgerOfRun 6000000 6000000 sampleSnap).get sampleLedger_isSome).generated_at
      = 6000000 ∧
    ((ledgerOfRun 6000000 6000000 sampleSnap).get sampleLedger_isSome).total_outdated_prices
      = (runAgg 6000000 6000000 sampleSnap).outdatedPrices.length ∧
    ((ledgerOfRun 6000000 6000000 sampleSnap).get sampleLedger_isSome).time_threshold_minutes
      = 60 :=
  have h := (C6_ledger_amended 6000000 6000000 sampleSnap).2
    ((ledgerOfRun 6000000 6000000 sampleSnap).get sampleLedger_isSome)
    (Option.some_get sampleLedger_isSome).symm
  ⟨h.1, h.2.1, h.2.2.2⟩

/-- C6 counterexample: the source classifier agrees with the spec's
configurable classifier only at the default 60-minute window — at a
30-minute window they disagree on a 33-minute-old quote — and the
persisted threshold field is the literal 60; the window is hard-coded,
not configurable. -/
theorem C6_ledger_counterexample :
    fresh 0 (-2000000) = true ∧
    specFreshW 1800000 0 (-2000000) = false ∧
    specFreshW 3600000 0 (-2000000) = true ∧
    (ledgerOfRun 6000000 6000000 sampleSnap).map Ledger.time_threshold_minutes
      = some 60 := by
  refine ⟨by decide, by decide, by decide, by decide⟩

theorem length_filter_not {α : Type} (p : α → Bool) :
    ∀ l : List α, (l.filter fun a => !p a).length = l.length - (l.filter p).length
  | [] => rfl
  | a :: l => by
    have hle := List.length_filter_le p l
    by_cases h : p a <;> simp [h, length_filter_not p l] <;> omega

/-- C3 amended: an invalid quote never enters valid aggregation, changes
no counter other than skip tallies, leaves every other provider entry
untouched, and bumps its provider's `skippedCount` iff its provider key
is truthy — non-null AND non-empty; at the item level the global skip
counter counts every invalid quote, provider key or not. -/
theorem C3_invalid_isolation_amended (n l : Int) (nm : String) (st : AggState)
    (q : Quote) (h : isValid q = false) :
    processValid n l nm st q = st ∧
    ((processSkip l st q).upToDateCount = st.upToDateCount ∧
      (processSkip l st q).totalPriceCount = st.totalPriceCount ∧
      (processSkip l st q).skippedPriceCount = st.skippedPriceCount ∧
      (processSkip l st q).outdatedPrices = st.outdatedPrices) ∧
    (∀ k, k ≠ keyOf q.provider_key →
      lookupS (processSkip l st q).providerStats k = lookupS st.providerStats k) ∧
    (truthyKey q.provider_key = true →
      lookupS (processSkip l st q).providerStats (keyOf q.provider_key)
        = some { (lookupS st.providerStats (keyOf q.provider_key)).getD (initStats l) with
                 skippedCount :=
                   ((lookupS st.providerStats (keyOf q.provider_key)).getD
                     (initStats l)).skippedCount + 1 }) ∧
    (truthyKey q.provider_key = false → processSkip l st q = st) ∧
    ∀ (it : Item), (processItem n l st it).skippedPriceCount
      = st.skippedPriceCount + ((it.prices.getD []).filter fun q2 => !isValid q2).length := by
  have hna : (q.updated_at.isNone || q.price.isNone) = true := by
    obtain ⟨pk, pr, ua⟩ := q
    cases pr <;> cases ua <;> simp_all [isValid]
  refine ⟨processValid_invalid n l nm st q h, processSkip_counters l st q,
    (fun k hk => processSkip_stats_ne l st q k hk), ?_, ?_, ?_⟩
  · intro htr
    exact processSkip_stats_self l st q (by rw [hna, htr]; rfl)
  · intro htr
    exact processSkip_not_truthy l st q (by rw [hna, htr]; rfl)
  · intro it
    rw [(processItem_counters n l st it).2.1, length_filter_not isValid _]
    simp [validOf, rawCount]

/-- An invalid quote whose provider key is the empty string. -/
def emptyKeySnap : List Item :=
  [{ market_hash_name := "X"
     prices := some [{ provider_key := some "", price := none, updated_at := some 0 }] }]

/-- C3 counterexample: an invalid quote carrying the non-null provider
key "" raises the global skip counter, yet no provider entry is created
and no `skippedCount` is incremented anywhere — the attribution test is
JS truthiness, not a null check. -/
theorem C3_invalid_isolation_counterexample :
    (runAgg 0 0 emptyKeySnap).skippedPriceCount = 1 ∧
    (runAgg 0 0 emptyKeySnap).providerStats = [] ∧
    (some "" : Option String) ≠ none := by
  refine ⟨by decide, by decide, by decide⟩

/-- C3 witness: an invalid quote with a truthy provider key. -/
theorem C3_invalid_isolation_amended_witness :
    processValid 0 0 "X" initAgg
      { provider_key := some "steam", price := none, updated_at := some 5 } = initAgg ∧
    lookupS (processSkip 0 initAgg
        { provider_key := some "steam", price := none, updated_at := some 5 }).providerStats
        "steam"
      = some { total := 0, upToDate := 0, oldestUpdate := 0, newestUpdate := 0
               totalPrice := 0, skippedCount := 1 } := by
  have h := C3_invalid_isolation_amended 0 0 "X" initAgg
    { provider_key := some "steam", price := none, updated_at := some 5 } (by decide)
  refine ⟨h.1, ?_⟩
  have h2 := h.2.2.2.1 (by decide)
  simpa [initAgg, lookupS, initStats, keyOf] using h2

theorem floor_half_rat : ⌊(1 : ℚ) / 2⌋ = 0 := by
  rw [Int.floor_eq_iff] <;> norm_num

theorem toFixed2_zero : toFixed2 0 = 0 := by
  unfold toFixed2
  norm_num [floor_half_rat]

/-- An item whose single quote has no price, no timestamp and no
provider key. -/
def degenSnap : List Item :=
  [{ market_hash_name := "X"
     prices := some [{ provider_key := none, price := none, updated_at := none }] }]

/-- C9: degenerate inputs are total: the empty snapshot yields the
all-zero report with no providers, no rankings and no ledger, and a
snapshot whose only quote is entirely null yields the same except for
one globally skipped quote. -/
theorem C9_degenerate_totality (n l : Int) :
    runReport n l [] =
      { totalPriceCount := 0, skippedPriceCount := 0, upToDateCount := 0
        outdatedCount := 0, freshPct := 0, dataQualityPct := none
        providers := [], best := none, worst := none } ∧
    ledgerOfRun n l [] = none ∧
    runReport n l degenSnap =
      { totalPriceCount := 0, skippedPriceCount := 1, upToDateCount := 0
        outdatedCount := 0, freshPct := 0, dataQualityPct := some 0
        providers := [], best := none, worst := none } ∧
    ledgerOfRun n l degenSnap = none := by
  have hagg1 : runAgg n l degenSnap =
      { upToDateCount := 0, totalPriceCount := 0, skippedPriceCount := 1
        providerStats := [], outdatedPrices := [] } := rfl
  have hagg0 : runAgg n l [] = initAgg := rfl
  refine ⟨?_, rfl, ?_, rfl⟩
  · simp [runReport, hagg0, initAgg, bestReported, worstReported, rankings]
  · simp [runReport, hagg1, bestReported, worstReported, rankings]
    norm_num [toFixed2_zero]

/-- C7 amended: every reported provider entry derives its fields by the
stated formulas with 2-decimal rounding when it has data — the absolute
instants from the accumulated bounds, the minutes-ago fields from the
report-phase clock reading `l` (the lines-140/144 `Date.now()` calls,
not the captured `now`) — reports the "0.00"/"N/A" sentinels when it
has none, and a data-less provider is never ranked best or worst. -/
theorem C7_provider_derived (n l : Int) (s : List Item) (k : String) (v : Stats)
    (h : lookupS (runAgg n l s).providerStats k = some v) :
    (k, deriveStats l v) ∈ (runReport n l s).providers ∧
    (0 < v.total → deriveStats l v =
      { upToDatePercentage := toFixed2 ((v.upToDate : ℚ) / (v.total : ℚ) * 100)
        avgPrice := toFixed2 ((v.totalPrice : ℚ) / (v.total : ℚ) / 100)
        oldestUpdateTime := some v.oldestUpdate
        newestUpdateTime := some v.newestUpdate
        oldestUpdateMinutesAgo := some (Int.fdiv (l - v.oldestUpdate) 60000)
        newestUpdateMinutesAgo := some (Int.fdiv (l - v.newestUpdate) 60000) }) ∧
    (v.total = 0 →
      deriveStats l v =
        { upToDatePercentage := 0, avgPrice := 0
          oldestUpdateTime := none, newestUpdateTime := none
          oldestUpdateMinutesAgo := none, newestUpdateMinutesAgo := none } ∧
      ∀ p, (runReport n l s).best ≠ some (k, p) ∧
           (runReport n l s).worst ≠ some (k, p)) := by
  refine ⟨?_, ?_, ?_⟩
  · have hm := lookupS_mem h
    show (k, deriveStats l v) ∈
      (runAgg n l s).providerStats.map (fun e => (e.1, deriveStats l e.2))
    exact List.mem_map.mpr ⟨(k, v), hm, rfl⟩
  · intro h0
    simp [deriveStats, h0]
  · intro h0
    refine ⟨by simp [deriveStats, h0], ?_⟩
    intro p
    constructor
    · intro hb
      have hb2 : bestReported (runAgg n l s).providerStats = some (k, p) := hb
      obtain ⟨s', hm', hpos⟩ := bestReported_mem _ _ _ hb2
      have hl2 := lookupS_of_mem_nodup (keysInv_runAgg n l s) hm'
      rw [h] at hl2
      injection hl2 with hl2
      subst hl2
      omega
    · intro hw
      have hw2 : worstReported (runAgg n l s).providerStats = some (k, p) := hw
      obtain ⟨s', hm', hpos⟩ := worstReported_mem _ _ _
        (upToDate_le_total_runAgg n l s) hw2
      have hl2 := lookupS_of_mem_nodup (keysInv_runAgg n l s) hm'
      rw [h] at hl2
      injection hl2 with hl2
      subst hl2
      omega

/-- C7 counterexample: over the same snapshot with the same captured
instant 6000000, report phases whose `Date.now()` reads differ by two
minutes report different minutes-ago values (32/92 versus 30/90): the
minutes-ago fields are relative to the later reading of lines 140/144,
not to the captured `now`. -/
theorem C7_provider_derived_counterexample :
    (runReport 6000000 6120000 sampleSnap).providers.map
        (fun e => e.2.oldestUpdateMinutesAgo)
      = [some 32, some 92, none] ∧
    (runReport 6000000 6000000 sampleSnap).providers.map
        (fun e => e.2.oldestUpdateMinutesAgo)
      = [some 30, some 90, none] := by
  refine ⟨by decide, by decide⟩

/-- The final steam entry of `sampleSnap`'s run. -/
def sSteam : Stats :=
  { total := 1, upToDate := 1, oldestUpdate := 4200000, newestUpdate := 4200000
    totalPrice := 1000, skippedCount := 0 }

/-- The final youpin entry of `sampleSnap`'s run: only a skipped quote. -/
def sYoupin : Stats :=
  { total := 0, upToDate := 0, oldestUpdate := 6000000, newestUpdate := 0
    totalPrice := 0, skippedCount := 1 }

/-- C7 witness at distinct captured and report-phase instants: a
provider with data and a provider without. -/
theorem C7_provider_derived_witness :
    deriveStats 6000000 sSteam =
      { upToDatePercentage := toFixed2 ((sSteam.upToDate : ℚ) / (sSteam.total : ℚ) * 100)
        avgPrice := toFixed2 ((sSteam.totalPrice : ℚ) / (sSteam.total : ℚ) / 100)
        oldestUpdateTime := some sSteam.oldestUpdate
        newestUpdateTime := some sSteam.newestUpdate
        oldestUpdateMinutesAgo := some (Int.fdiv (6000000 - sSteam.oldestUpdate) 60000)
        newestUpdateMinutesAgo := some (Int.fdiv (6000000 - sSteam.newestUpdate) 60000) } ∧
    deriveStats 6000000 sYoupin =
      { upToDatePercentage := 0, avgPrice := 0, oldestUpdateTime := none
        newestUpdateTime := none, oldestUpdateMinutesAgo := none
        newestUpdateMinutesAgo := none } :=
  ⟨(C7_provider_derived 5900000 6000000 sampleSnap "steam" sSteam
      (by decide)).2.1 (by decide),
   ((C7_provider_derived 5900000 6000000 sampleSnap "youpin" sYoupin
      (by decide)).2.2 (by decide)).1⟩

theorem floor_20001_half : ⌊(20001 : ℚ) / 2⌋ = 10000 := by
  rw [Int.floor_eq_iff] <;> norm_num

theorem pctOf_full {s : Stats} (h1 : s.total = 1) (h2 : s.upToDate = 1) :
    pctOf s = 100 := by
  unfold pctOf toFixed2
  rw [h1, h2]
  norm_num [floor_20001_half]

/-- The reported best ranking is exactly the first-encounter maximum
among entries with data, except that a winner keyed by the empty string
is suppressed by the falsy `if (bestProvider)` check of line 264. -/
theorem bestReported_char (m : List (String × Stats)) :
    bestReported m = (specBest m).bind
      (fun kp => if kp.1 = "" then none else some kp) := by
  have h1 : (rankings m).1 = (match specBest m with
      | none => (("" : String), (-1 : ℚ))
      | some (k, p) => if (-1 : ℚ) < p then (k, p) else ("", -1)) := by
    rw [rankings_eq]
    rw [foldB_spec m ("", -1)]
  unfold bestReported
  rw [h1]
  cases hsb : specBest m with
  | none => simp
  | some kp =>
    obtain ⟨k, p⟩ := kp
    obtain ⟨s, hsm, hst, rfl⟩ := specBest_mem m _ _ hsb
    have hp0 : (-1 : ℚ) < pctOf s := lt_of_lt_of_le (by norm_num) (pctOf_nonneg s)
    simp [hp0]

/-- Worst-ranking analogue of `bestReported_char`. -/
theorem worstReported_char (m : List (String × Stats))
    (hub : ∀ e ∈ m, e.2.upToDate ≤ e.2.total) :
    worstReported m = (specWorst m).bind
      (fun kp => if kp.1 = "" then none else some kp) := by
  have h1 : (rankings m).2 = (match specWorst m with
      | none => (("" : String), (101 : ℚ))
      | some (k, p) => if p < (101 : ℚ) then (k, p) else ("", 101)) := by
    rw [rankings_eq]
    rw [foldW_spec m ("", 101)]
  unfold worstReported
  rw [h1]
  cases hsb : specWorst m with
  | none => simp
  | some kp =>
    obtain ⟨k, p⟩ := kp
    obtain ⟨s, hsm, hst, rfl⟩ := specWorst_mem m _ _ hsb
    have hp0 : pctOf s < 101 :=
      lt_of_le_of_lt (pctOf_le_100 (hub (k, s) hsm)) (by norm_num)
    simp [hp0]

/-- C5 amended: the reported rankings are the first entry, in
first-sighting (map insertion) order, attaining the maximum (resp.
minimum) rounded fresh percentage among providers with data, except
that a winner whose provider key is the empty string is suppressed by
the falsy `if (bestProvider)` / `if (worstProvider)` checks of lines
264/269; no ranking is reported when no provider has data.  When no
quote carries an empty-string provider key, the rankings are exactly
the first-encounter maximum and minimum. -/
theorem C5_rankings_amended (n l : Int) (s : List Item) :
    ((runReport n l s).best = (specBest (runAgg n l s).providerStats).bind
        (fun kp => if kp.1 = "" then none else some kp)) ∧
    ((runReport n l s).worst = (specWorst (runAgg n l s).providerStats).bind
        (fun kp => if kp.1 = "" then none else some kp)) ∧
    ((∀ it ∈ s, ∀ q ∈ it.prices.getD [], q.provider_key ≠ some "") →
      (runReport n l s).best = specBest (runAgg n l s).providerStats ∧
      (runReport n l s).worst = specWorst (runAgg n l s).providerStats) := by
  refine ⟨bestReported_char _,
    worstReported_char _ (upToDate_le_total_runAgg n l s), ?_⟩
  intro hk
  have hne := keysNE_runAgg n l s hk
  have hub := upToDate_le_total_runAgg n l s
  exact ⟨bestReported_spec _ hne, worstReported_spec _ hub hne⟩

/-- Two providers tied at 100 percent, "z" sighted before "a". -/
def zaSnap : List Item :=
  [{ market_hash_name := "I"
     prices := some
       [ { provider_key := some "z", price := some 100, updated_at := some 3600000 }
       , { provider_key := some "a", price := some 200, updated_at := some 3600000 } ] }]

/-- C5 witness at a concrete snapshot with no empty-string keys. -/
theorem C5_rankings_amended_witness :
    (runReport 3600000 3600000 zaSnap).best
      = specBest (runAgg 3600000 3600000 zaSnap).providerStats ∧
    (runReport 3600000 3600000 zaSnap).worst
      = specWorst (runAgg 3600000 3600000 zaSnap).providerStats :=
  (C5_rankings_amended 3600000 3600000 zaSnap).2.2 (by decide)

/-- A single fresh valid quote keyed by the empty string: its provider
entry has data and the maximum percentage, yet line 264's truthiness
check reports no ranking at all. -/
def emptyWinnerSnap : List Item :=
  [{ market_hash_name := "E"
     prices := some
       [ { provider_key := some "", price := some 100, updated_at := some 3600000 } ] }]

/-- C5 counterexample: providers "z" and "a" are tied at 100 percent,
yet both rankings report "z", the first provider sighted — not "a", the
first in ascending lexical order; the ranking loop iterates
`Object.keys` in insertion order, there is no sort.  Moreover a
maximal provider keyed "" (with data) is not reported at all. -/
theorem C5_rankings_counterexample :
    (runReport 3600000 3600000 zaSnap).best = some ("z", 100) ∧
    (runReport 3600000 3600000 zaSnap).worst = some ("z", 100) ∧
    lookupS (runAgg 3600000 3600000 zaSnap).providerStats "a"
      = some { total := 1, upToDate := 1, oldestUpdate := 3600000
               newestUpdate := 3600000, totalPrice := 200, skippedCount := 0 } ∧
    ('a' : Char) < 'z' ∧
    lookupS (runAgg 3600000 3600000 emptyWinnerSnap).providerStats ""
      = some { total := 1, upToDate := 1, oldestUpdate := 3600000
               newestUpdate := 3600000, totalPrice := 100, skippedCount := 0 } ∧
    (runReport 3600000 3600000 emptyWinnerSnap).best = none ∧
    (runReport 3600000 3600000 emptyWinnerSnap).worst = none := by
  have hstats : (runAgg 3600000 3600000 zaSnap).providerStats =
      [("z", { total := 1, upToDate := 1, oldestUpdate := 3600000
               newestUpdate := 3600000, totalPrice := 100, skippedCount := 0 }),
       ("a", { total := 1, upToDate := 1, oldestUpdate := 3600000
               newestUpdate := 3600000, totalPrice := 200, skippedCount := 0 })] := by
    decide
  have hz : pctOf { total := 1, upToDate := 1, oldestUpdate := 3600000,
                    newestUpdate := 3600000, totalPrice := 100,
                    skippedCount := 0 } = 100 :=
    pctOf_full rfl rfl
  have ha : pctOf { total := 1, upToDate := 1, oldestUpdate := 3600000,
                    newestUpdate := 3600000, totalPrice := 200,
                    skippedCount := 0 } = 100 :=
    pctOf_full rfl rfl
  have hestats : (runAgg 3600000 3600000 emptyWinnerSnap).providerStats =
      [("", { total := 1, upToDate := 1, oldestUpdate := 3600000
              newestUpdate := 3600000, totalPrice := 100, skippedCount := 0 })] := by
    decide
  have he : pctOf { total := 1, upToDate := 1, oldestUpdate := 3600000,
                    newestUpdate := 3600000, totalPrice := 100,
                    skippedCount := 0 } = 100 :=
    pctOf_full rfl rfl
  refine ⟨?_, ?_, by decide, by decide, by decide, ?_, ?_⟩
  · show bestReported (runAgg 3600000 3600000 zaSnap).providerStats = _
    rw [hstats]
    unfold bestReported rankings
    simp only [List.foldl_cons, List.foldl_nil, rankStep, hz, ha]
    norm_num
    intro h
    exact absurd h (by decide)
  · show worstReported (runAgg 3600000 3600000 zaSnap).providerStats = _
    rw [hstats]
    unfold worstReported rankings
    simp only [List.foldl_cons, List.foldl_nil, rankStep, hz, ha]
    norm_num
    intro h
    exact absurd h (by decide)
  · show bestReported (runAgg 3600000 3600000 emptyWinnerSnap).providerStats = _
    rw [hestats]
    unfold bestReported rankings
    simp only [List.foldl_cons, List.foldl_nil, rankStep, he]
    norm_num
  · show worstReported (runAgg 3600000 3600000 emptyWinnerSnap).providerStats = _
    rw [hestats]
    unfold worstReported rankings
    simp only [List.foldl_cons, List.foldl_nil, rankStep, he]
    norm_num
